import Mathlib

/-!
Shallow embedding of the resource-handle / capability layer of
`llvm-codegen-utils-core` (file `src/crates/llvm-codegen-utils-core/src/lib.rs`).

The crate tracks ownership of foreign pointers in a single global table

  static M: LazyLock<Mutex<BTreeMap<usize, (usize, Box<dyn FnOnce(*mut (), *mut ()) + Send>)>>>

keyed by the raw pointer address.  Each entry stores a count of the extra
references beyond the first, together with a type-erased release closure that
captures the `dropper: fn(*mut T, K)` supplied to `LLHandle::from_raw_parts`.
We model the table as an association list from addresses (`Nat`) to entries;
the release closure is represented by the numeric identity of the captured
`dropper` function.  The boxed payload `K` is write-once and its pointer is
shared by all clones of a handle, so we model the box by its contents: the
`key` field of a handle carries the payload value itself.
-/

/-- One entry of the global ownership table `M`: the stored count (number of
extra references beyond one) and the identity of the release closure. -/
structure RegEntry where
  count : Nat
  dropper : Nat
deriving DecidableEq

/-- The global ownership table `M`, as an association list keyed by the raw
pointer address (`ptr as usize`). -/
abbrev Registry := List (Nat × RegEntry)

/-- `BTreeMap::get` on the model of `M`. -/
def regGet : Registry → Nat → Option RegEntry
  | [], _ => none
  | (a, e) :: rest, x => if x = a then some e else regGet rest x

/-- `BTreeMap::remove` on the model of `M` (drops every binding of the key). -/
def regErase : Registry → Nat → Registry
  | [], _ => []
  | (a, e) :: rest, x => if x = a then regErase rest x else (a, e) :: regErase rest x

/-- `BTreeMap::insert` on the model of `M`: overwrites any existing binding of
the key. -/
def regInsert (m : Registry) (x : Nat) (e : RegEntry) : Registry :=
  (x, e) :: regErase m x

/-- The `LLHandle<'a, K, T>` smart handle: a raw pointer address `val` and the
payload `key` (the contents of the boxed `K`; all clones of a handle share the
box, so they carry equal payloads). -/
structure LLHandle (K : Type) where
  val : Nat
  key : K
deriving DecidableEq

/-- A call of a release closure: the closure's identity and the two arguments
the `Drop` impl passes to it, `self.val` and the payload behind `self.key`. -/
structure RelEvent (K : Type) where
  dropper : Nat
  ptr : Nat
  payload : K
deriving DecidableEq

/-- `LLHandle::from_raw_parts(ptr, dropper, key)`: boxes the key, inserts the
entry `(0, closure capturing dropper)` into `M` at key `ptr as usize`
(an unconditional `insert`, overwriting any existing entry), and returns the
handle `{ val: ptr, key }`. -/
def fromRawParts (m : Registry) (ptr dropper : Nat) (key : K) :
    LLHandle K × Registry :=
  (⟨ptr, key⟩, regInsert m ptr ⟨0, dropper⟩)

/-- `LLHandle::leaked(ptr, key)`: returns `{ val: ptr, key }` without touching
the table `M`. -/
def leaked (ptr : Nat) (key : K) : LLHandle K :=
  ⟨ptr, key⟩

/-- `LLHandle::ptr`. -/
def LLHandle.ptr (h : LLHandle K) : Nat := h.val

/-- `impl Clone for LLHandle`: if `M` has an entry at `self.val as usize`,
increment its stored count; the returned handle copies `val` and the `key`
pointer.  No release closure is invoked. -/
def cloneH (m : Registry) (h : LLHandle K) : LLHandle K × Registry :=
  match regGet m h.val with
  | some e => (⟨h.val, h.key⟩, regInsert m h.val ⟨e.count + 1, e.dropper⟩)
  | none => (⟨h.val, h.key⟩, m)

/-- `impl Drop for LLHandle`: `remove` the entry of `M` at `self.val as usize`
(return doing nothing when absent); when its stored count is `0` invoke the
stored closure on `(self.val, self.key)`, otherwise re-`insert` the entry with
the count decremented. -/
def dropH (m : Registry) (h : LLHandle K) : Registry × Option (RelEvent K) :=
  match regGet m h.val with
  | none => (m, none)
  | some e =>
    if e.count = 0 then
      (regErase m h.val, some ⟨e.dropper, h.val, h.key⟩)
    else
      (regInsert (regErase m h.val) h.val ⟨e.count - 1, e.dropper⟩, none)

/-- Number of live references the table records for an address: the stored
count plus one when the address is registered (the stored count is the number
of extra references beyond the first), zero otherwise. -/
def refCount (m : Registry) (x : Nat) : Nat :=
  match regGet m x with
  | some e => e.count + 1
  | none => 0

/-- Cloning the same handle `n` times in sequence (each clone returns a handle
equal to its source, so the table evolution is all that varies). -/
def cloneN (m : Registry) (h : LLHandle K) : Nat → Registry
  | 0 => m
  | n + 1 => (cloneH (cloneN m h n) h).2

/-- Dropping `n` data-identical handles in sequence, collecting the release
calls that occur, in order. -/
def dropMany (m : Registry) (h : LLHandle K) : Nat → Registry × List (RelEvent K)
  | 0 => (m, [])
  | n + 1 =>
    let p := dropMany m h n
    let q := dropH p.1 h
    (q.1, p.2 ++ q.2.toList)

theorem regGet_erase (m : Registry) (x y : Nat) :
    regGet (regErase m x) y = if y = x then none else regGet m y := by
  induction m with
  | nil => simp [regErase, regGet]
  | cons a rest ih =>
    obtain ⟨b, e⟩ := a
    by_cases hxb : x = b <;> by_cases hyb : y = b <;> by_cases hyx : y = x <;>
      simp_all [regErase, regGet]

theorem regGet_insert (m : Registry) (x y : Nat) (e : RegEntry) :
    regGet (regInsert m x e) y = if y = x then some e else regGet m y := by
  unfold regInsert
  by_cases hy : y = x
  · subst hy; simp [regGet]
  · simp [regGet, hy, regGet_erase]

theorem cloneN_get (m : Registry) (p c d : Nat) (k : K) (n : Nat)
    (hm : regGet m p = some ⟨c, d⟩) :
    regGet (cloneN m (⟨p, k⟩ : LLHandle K) n) p = some ⟨c + n, d⟩ ∧
    ∀ x, x ≠ p → regGet (cloneN m (⟨p, k⟩ : LLHandle K) n) x = regGet m x := by
  induction n with
  | zero => exact ⟨hm, fun x _ => rfl⟩
  | succ n ih =>
    obtain ⟨h1, h2⟩ := ih
    refine ⟨?_, ?_⟩
    · simp [cloneN, cloneH, h1, regGet_insert] <;> omega
    · intro x hx
      simp [cloneN, cloneH, h1, regGet_insert, hx, h2 x hx]

theorem dropMany_le (m : Registry) (p c d : Nat) (k : K)
    (hm : regGet m p = some ⟨c, d⟩) :
    ∀ j, j ≤ c →
      (dropMany m (⟨p, k⟩ : LLHandle K) j).2 = [] ∧
      regGet (dropMany m (⟨p, k⟩ : LLHandle K) j).1 p = some ⟨c - j, d⟩ := by
  intro j
  induction j with
  | zero => exact fun _ => ⟨rfl, by simpa using hm⟩
  | succ j ih =>
    intro hj
    obtain ⟨h1, h2⟩ := ih (Nat.le_of_succ_le hj)
    have hcj : c - j ≠ 0 := by omega
    refine ⟨?_, ?_⟩
    · simp [dropMany, h1, dropH, h2, hcj]
    · have : c - j - 1 = c - (j + 1) := by omega
      simp [dropMany, dropH, h2, hcj, regGet_insert, this]

/-- Claim C1: for every owning handle created by `LLHandle::from_raw_parts`
with pointer `p`, release routine `d` and payload `k`, and every `n`: the
clone of the handle is data-identical to it, dropping the first `n` of the
`n + 1` handles invokes no release routine, and dropping all `n + 1` handles
invokes the release routine exactly once — on the last drop — with the
original pointer `p` and payload `k`. -/
theorem claim_C1_owning_released_exactly_once
    (m0 : Registry) (p d n : Nat) (k : K) :
    (cloneH (fromRawParts m0 p d k).2 (fromRawParts m0 p d k).1).1
        = (fromRawParts m0 p d k).1 ∧
    (dropMany (cloneN (fromRawParts m0 p d k).2 (fromRawParts m0 p d k).1 n)
        (fromRawParts m0 p d k).1 n).2 = [] ∧
    (dropMany (cloneN (fromRawParts m0 p d k).2 (fromRawParts m0 p d k).1 n)
        (fromRawParts m0 p d k).1 (n + 1)).2 = [⟨d, p, k⟩] := by
  simp only [fromRawParts]
  have hm1 : regGet (regInsert m0 p ⟨0, d⟩) p = some ⟨0, d⟩ := by
    simp [regGet_insert]
  have hm2 := (cloneN_get (regInsert m0 p ⟨0, d⟩) p 0 d k n hm1).1
  rw [Nat.zero_add] at hm2
  have hd := dropMany_le (cloneN (regInsert m0 p ⟨0, d⟩) ⟨p, k⟩ n) p n d k hm2 n
    (Nat.le_refl n)
  have hlast : regGet (dropMany (cloneN (regInsert m0 p ⟨0, d⟩) ⟨p, k⟩ n)
      (⟨p, k⟩ : LLHandle K) n).1 p = some ⟨0, d⟩ := by
    have := hd.2
    rwa [Nat.sub_self] at this
  refine ⟨?_, hd.1, ?_⟩
  · simp [cloneH, hm1]
  · simp [dropMany, hd.1, dropH, hlast]

theorem cloneH_unregistered (m : Registry) (h : LLHandle K)
    (hp : regGet m h.val = none) : cloneH m h = (h, m) := by
  simp [cloneH, hp]

theorem dropH_unregistered (m : Registry) (h : LLHandle K)
    (hp : regGet m h.val = none) : dropH m h = (m, none) := by
  simp [dropH, hp]

theorem cloneN_unregistered (m : Registry) (h : LLHandle K) (n : Nat)
    (hp : regGet m h.val = none) : cloneN m h n = m := by
  induction n with
  | zero => rfl
  | succ n ih => simp [cloneN, ih, cloneH_unregistered m h hp]

theorem dropMany_unregistered (m : Registry) (h : LLHandle K) (n : Nat)
    (hp : regGet m h.val = none) : dropMany m h n = (m, []) := by
  induction n with
  | zero => rfl
  | succ n ih => simp [dropMany, ih, dropH_unregistered m h hp]

/-- Claim C2: the claim states that dropping a handle made by
`LLHandle::leaked` never triggers release of the foreign resource, even when
an owning handle for the same address exists.  The code violates this: `Drop`
looks up only the raw address in the global table, so dropping
`LLHandle::leaked(1, 5)` while an owning registration for address `1` (made
by `LLHandle::from_raw_parts(1, 7, 0)`) exists finds the owning entry and —
its stored count being zero — invokes the owning registration's release
closure, with the leaked handle's payload.  This contradicts `leaked`'s own
documentation ("a handle ... that won't be automatically cleaned up"), and
the crate itself creates such aliases: `Value::mod` returns a leaked handle
at the very module address that `create_mod` registered as owned, so dropping
it disposes the still-referenced module. -/
theorem claim_C2_leaked_drop_fires_owning_release :
    (dropH (fromRawParts ([] : Registry) 1 7 (0 : Nat)).2
        (leaked 1 (5 : Nat))).2 = some ⟨7, 1, 5⟩ := by
  decide

/-- A handle created by `LLHandle::leaked(p, k)` does behave as documented as
long as no owning registration for the address `p` exists in the global
table: any number of clones and drops invoke no release routine and leave the
table unchanged. -/
theorem leaked_unregistered_never_released
    (m : Registry) (p : Nat) (k : K) (n : Nat) (hp : regGet m p = none) :
    cloneN m (leaked p k) n = m ∧
    (dropMany m (leaked p k) (n + 1)).2 = [] ∧
    (dropMany m (leaked p k) (n + 1)).1 = m := by
  have h1 := cloneN_unregistered m (leaked p k) n hp
  have h2 := dropMany_unregistered m (leaked p k) (n + 1) hp
  exact ⟨h1, by simp [h2], by simp [h2]⟩

theorem leaked_unregistered_never_released_example :
    cloneN ([] : Registry) (leaked 3 (0 : Nat)) 2 = [] ∧
    (dropMany ([] : Registry) (leaked 3 (0 : Nat)) 3).2 = [] ∧
    (dropMany ([] : Registry) (leaked 3 (0 : Nat)) 3).1 = [] :=
  leaked_unregistered_never_released [] 3 0 2 (by decide)

/-- Claim C3: `LLHandle::from_raw_parts(ptr, dropper, key)` fails only if the
pointer is null — in fact it has no failure path at all, so the implication
holds vacuously — and for every non-null pointer it succeeds, returning a
handle carrying the pointer and payload, registering the address as owned with
reference count one (stored extra-count `0`) and the given release routine,
and threading the payload back into the release routine at disposal time. -/
theorem claim_C3_from_raw_parts_registers
    (m : Registry) (p d : Nat) (k : K) (hp : p ≠ 0) :
    (fromRawParts m p d k).1.val = p ∧
    (fromRawParts m p d k).1.key = k ∧
    regGet (fromRawParts m p d k).2 p = some ⟨0, d⟩ ∧
    refCount (fromRawParts m p d k).2 p = 1 ∧
    (dropH (fromRawParts m p d k).2 (fromRawParts m p d k).1).2
      = some ⟨d, p, k⟩ := by
  have hg : regGet (fromRawParts m p d k).2 p = some ⟨0, d⟩ := by
    simp [fromRawParts, regGet_insert]
  refine ⟨rfl, rfl, hg, ?_, ?_⟩
  · simp [refCount, hg]
  · simp [fromRawParts] at hg ⊢
    simp [dropH, hg]

theorem claim_C3_witness :
    (fromRawParts ([] : Registry) 2 9 (4 : Nat)).1.val = 2 ∧
    (fromRawParts ([] : Registry) 2 9 (4 : Nat)).1.key = 4 ∧
    regGet (fromRawParts ([] : Registry) 2 9 (4 : Nat)).2 2 = some ⟨0, 9⟩ ∧
    refCount (fromRawParts ([] : Registry) 2 9 (4 : Nat)).2 2 = 1 ∧
    (dropH (fromRawParts ([] : Registry) 2 9 (4 : Nat)).2
        (fromRawParts ([] : Registry) 2 9 (4 : Nat)).1).2 = some ⟨9, 2, 4⟩ :=
  claim_C3_from_raw_parts_registers [] 2 9 4 (by decide)

/-- The `ICmp` predicate enum (`pub enum ICmp { Eq, Lt, Lts }`). -/
inductive ICmp where
  | Eq
  | Lt
  | Lts
deriving DecidableEq, Fintype

/-- The backend's native comparison codes, `llvm_sys::LLVMIntPredicate`. -/
inductive LLVMIntPredicate where
  | LLVMIntEQ
  | LLVMIntNE
  | LLVMIntUGT
  | LLVMIntUGE
  | LLVMIntULT
  | LLVMIntULE
  | LLVMIntSGT
  | LLVMIntSGE
  | LLVMIntSLT
  | LLVMIntSLE
deriving DecidableEq, Fintype

/-- `impl From<ICmp> for llvm_sys::LLVMIntPredicate`, generated identically in
every version module: `Eq => LLVMIntEQ, Lt => LLVMIntULT, Lts => LLVMIntSLT`. -/
def icmpFrom : ICmp → LLVMIntPredicate
  | ICmp.Eq => LLVMIntPredicate.LLVMIntEQ
  | ICmp.Lt => LLVMIntPredicate.LLVMIntULT
  | ICmp.Lts => LLVMIntPredicate.LLVMIntSLT

/-- Claim C4: the conversion from `ICmp` predicates to native comparison codes
maps `Eq` to the equal code, `Lt` to the unsigned-less code and `Lts` to the
signed-less code; it is total over the three predicates (which exhaust the
enum), produces only those three native codes, and is injective (the image of
the three predicates has no duplicates). -/
theorem claim_C4_icmp_mapping_total_injective :
    icmpFrom ICmp.Eq = LLVMIntPredicate.LLVMIntEQ ∧
    icmpFrom ICmp.Lt = LLVMIntPredicate.LLVMIntULT ∧
    icmpFrom ICmp.Lts = LLVMIntPredicate.LLVMIntSLT ∧
    (∀ a : ICmp, a ∈ [ICmp.Eq, ICmp.Lt, ICmp.Lts]) ∧
    (∀ a : ICmp, icmpFrom a ∈ [LLVMIntPredicate.LLVMIntEQ,
        LLVMIntPredicate.LLVMIntULT, LLVMIntPredicate.LLVMIntSLT]) ∧
    ([ICmp.Eq, ICmp.Lt, ICmp.Lts].map icmpFrom).Nodup := by
  decide

/-- The handle operations visible to clients, for reasoning about arbitrary
program traces over the global table. -/
inductive Op (K : Type) where
  | cloneOp (h : LLHandle K)
  | dropOp (h : LLHandle K)
  | fromRawOp (ptr dropper : Nat) (key : K)
  | leakOp (ptr : Nat) (key : K)

/-- One step of a trace: the table update and the release call (if any) the
operation performs.  Only `Drop` can invoke a release closure. -/
def step (m : Registry) : Op K → Registry × Option (RelEvent K)
  | Op.cloneOp h => ((cloneH m h).2, none)
  | Op.dropOp h => dropH m h
  | Op.fromRawOp p d k => ((fromRawParts m p d k).2, none)
  | Op.leakOp _ _ => (m, none)

/-- Run a list of operations, collecting the release calls in order. -/
def run (m : Registry) : List (Op K) → Registry × List (RelEvent K)
  | [] => (m, [])
  | op :: ops =>
    let p := step m op
    let q := run p.1 ops
    (q.1, p.2.toList ++ q.2)

/-- Whether an operation registers a resource under the given release-closure
identity.  Each `from_raw_parts` call boxes a fresh closure, so in a real
trace a later registration never reuses an earlier closure's identity. -/
def usesDropper (d : Nat) : Op K → Bool
  | Op.fromRawOp _ d2 _ => d2 = d
  | _ => false

/-- Whether no binding of the table stores the given release-closure
identity. -/
def dropperFree (m : Registry) (d : Nat) : Bool :=
  m.all (fun pr => !(pr.2.dropper = d))

theorem dropperFree_get (m : Registry) (d x : Nat) (e : RegEntry)
    (hf : dropperFree m d = true) (h : regGet m x = some e) :
    e.dropper ≠ d := by
  induction m with
  | nil => simp [regGet] at h
  | cons a rest ih =>
    obtain ⟨b, e2⟩ := a
    simp [dropperFree] at hf
    simp [regGet] at h
    by_cases hb : x = b
    · rw [if_pos hb] at h
      cases h
      exact hf.1
    · rw [if_neg hb] at h
      exact ih (by simp [dropperFree]; exact hf.2) h

theorem dropperFree_erase (m : Registry) (d x : Nat)
    (hf : dropperFree m d = true) : dropperFree (regErase m x) d = true := by
  induction m with
  | nil => simp [regErase, dropperFree]
  | cons a rest ih =>
    obtain ⟨b, e⟩ := a
    simp [dropperFree] at hf
    have hr := ih (by simp [dropperFree]; exact hf.2)
    by_cases hb : x = b <;> simp [regErase, hb, dropperFree] at hr ⊢
    · exact hr
    · exact ⟨hf.1, hr⟩

theorem dropperFree_insert (m : Registry) (d x : Nat) (e : RegEntry)
    (hf : dropperFree m d = true) (he : e.dropper ≠ d) :
    dropperFree (regInsert m x e) d = true := by
  have := dropperFree_erase m d x hf
  simp [regInsert, dropperFree] at this ⊢
  exact ⟨he, this⟩

theorem step_dropperFree (m : Registry) (d : Nat) (op : Op K)
    (hf : dropperFree m d = true) (hop : usesDropper d op = false) :
    dropperFree (step m op).1 d = true ∧
    ∀ ev, (step m op).2 = some ev → ev.dropper ≠ d := by
  cases op with
  | cloneOp h =>
    refine ⟨?_, by simp [step]⟩
    rcases hg : regGet m h.val with _ | e
    · simpa [step, cloneH, hg] using hf
    · have := dropperFree_get m d h.val e hf hg
      simp [step, cloneH, hg]
      exact dropperFree_insert m d h.val _ hf this
  | dropOp h =>
    rcases hg : regGet m h.val with _ | e
    · exact ⟨by simpa [step, dropH, hg] using hf, by simp [step, dropH, hg]⟩
    · have hne := dropperFree_get m d h.val e hf hg
      by_cases hc : e.count = 0
      · refine ⟨?_, ?_⟩
        · simpa [step, dropH, hg, hc] using dropperFree_erase m d h.val hf
        · intro ev hev
          simp [step, dropH, hg, hc] at hev
          rw [← hev]
          exact hne
      · refine ⟨?_, by simp [step, dropH, hg, hc]⟩
        simp [step, dropH, hg, hc]
        exact dropperFree_insert (regErase m h.val) d h.val _
          (dropperFree_erase m d h.val hf) hne
  | fromRawOp p d2 k =>
    simp [usesDropper] at hop
    refine ⟨?_, by simp [step]⟩
    simp [step, fromRawParts]
    exact dropperFree_insert m d p _ hf hop
  | leakOp p k => exact ⟨hf, by simp [step]⟩

theorem run_dropperFree (d : Nat) (ops : List (Op K)) :
    ∀ m, dropperFree m d = true →
      (∀ op ∈ ops, usesDropper d op = false) →
      ∀ ev ∈ (run m ops).2, ev.dropper ≠ d := by
  induction ops with
  | nil => intro m _ _ ev hev; simp [run] at hev
  | cons op ops ih =>
    intro m hm hops ev hev
    have hstep := step_dropperFree m d op hm (hops op (by simp))
    simp [run] at hev
    rcases hev with hev | hev
    · rcases hq : (step m op).2 with _ | ev2
      · simp [hq] at hev
      · simp [hq] at hev
        exact hev ▸ hstep.2 ev2 hq
    · exact ih (step m op).1 hstep.1 (fun o ho => hops o (by simp [ho])) ev hev

/-- Claim C8: `Clone` returns a handle with the same raw pointer and payload;
when the handle's address is registered as owned, the shared reference count
for the resource is incremented by one and no other address's entry changes;
when it is not registered (a non-owning reference), the table is unchanged, so
the clone is another non-owning reference; and cloning invokes no release
closure (it makes no foreign call and changes no foreign state). -/
theorem claim_C8_clone_semantics (m : Registry) (h : LLHandle K) :
    (cloneH m h).1 = h ∧
    (∀ e, regGet m h.val = some e →
        refCount (cloneH m h).2 h.val = refCount m h.val + 1 ∧
        ∀ x, x ≠ h.val → regGet (cloneH m h).2 x = regGet m x) ∧
    (regGet m h.val = none → (cloneH m h).2 = m) ∧
    (step m (Op.cloneOp h)).2 = none := by
  refine ⟨?_, ?_, ?_, by simp [step]⟩
  · rcases hg : regGet m h.val with _ | e <;> simp [cloneH, hg]
  · intro e hg
    refine ⟨?_, ?_⟩
    · simp [cloneH, hg, refCount, regGet_insert]
    · intro x hx
      simp [cloneH, hg, regGet_insert, hx]
  · intro hg
    simp [cloneH, hg]

theorem claim_C8_witness :
    (cloneH [(1, (⟨0, 5⟩ : RegEntry))] (⟨1, 9⟩ : LLHandle Nat)).1 = ⟨1, 9⟩ ∧
    refCount (cloneH [(1, (⟨0, 5⟩ : RegEntry))] (⟨1, 9⟩ : LLHandle Nat)).2 1
      = refCount [(1, (⟨0, 5⟩ : RegEntry))] 1 + 1 ∧
    (cloneH [(2, (⟨0, 5⟩ : RegEntry))] (⟨1, 9⟩ : LLHandle Nat)).2
      = [(2, (⟨0, 5⟩ : RegEntry))] :=
  ⟨(claim_C8_clone_semantics [(1, (⟨0, 5⟩ : RegEntry))]
      (⟨1, 9⟩ : LLHandle Nat)).1,
    ((claim_C8_clone_semantics [(1, (⟨0, 5⟩ : RegEntry))]
      (⟨1, 9⟩ : LLHandle Nat)).2.1 ⟨0, 5⟩ (by decide)).1,
    (claim_C8_clone_semantics [(2, (⟨0, 5⟩ : RegEntry))]
      (⟨1, 9⟩ : LLHandle Nat)).2.2.1 (by decide)⟩

/-- Claim C9 (implicit): the global ownership table is keyed by raw pointer
address and holds at most one binding per address; calling
`LLHandle::from_raw_parts` at an address that is already registered as owned
overwrites the existing entry (leaving every other address unchanged), and the
overwritten registration's release closure — boxed afresh per registration,
hence appearing nowhere else in the table and distinct from every later
registration's closure — is never invoked by any subsequent trace of clone,
drop, leak or registration operations. -/
theorem claim_C9_overwrite_orphans_old_dropper
    (m0 : Registry) (p c dOld dNew : Nat) (kNew : K) (ops : List (Op K))
    (hold : regGet m0 p = some ⟨c, dOld⟩)
    (hnew : dNew ≠ dOld)
    (huniq : dropperFree (regErase m0 p) dOld = true)
    (hfresh : ∀ op ∈ ops, usesDropper dOld op = false) :
    regGet (fromRawParts m0 p dNew kNew).2 p = some ⟨0, dNew⟩ ∧
    (∀ x, x ≠ p → regGet (fromRawParts m0 p dNew kNew).2 x = regGet m0 x) ∧
    ∀ ev ∈ (run (fromRawParts m0 p dNew kNew).2 ops).2, ev.dropper ≠ dOld := by
  have heq : (fromRawParts m0 p dNew kNew).2
      = (p, (⟨0, dNew⟩ : RegEntry)) :: regErase m0 p := rfl
  have hfree : dropperFree (fromRawParts m0 p dNew kNew).2 dOld = true := by
    rw [heq]
    simp [dropperFree] at huniq ⊢
    exact ⟨hnew, huniq⟩
  refine ⟨?_, ?_, run_dropperFree dOld ops _ hfree hfresh⟩
  · simp [fromRawParts, regGet_insert]
  · intro x hx
    simp [fromRawParts, regGet_insert, hx]

theorem claim_C9_witness :
    regGet (fromRawParts [(1, (⟨0, 5⟩ : RegEntry))] 1 6 (0 : Nat)).2 1
      = some ⟨0, 6⟩ ∧
    regGet (fromRawParts [(1, (⟨0, 5⟩ : RegEntry))] 1 6 (0 : Nat)).2 2
      = regGet [(1, (⟨0, 5⟩ : RegEntry))] 2 ∧
    (⟨6, 1, 0⟩ : RelEvent Nat).dropper ≠ 5 := by
  have h := claim_C9_overwrite_orphans_old_dropper
      [(1, (⟨0, 5⟩ : RegEntry))] 1 0 5 6 (0 : Nat)
      [Op.dropOp ⟨1, 0⟩, Op.cloneOp ⟨1, 0⟩, Op.dropOp ⟨1, 0⟩]
      (by decide) (by decide) (by decide) (by decide)
  exact ⟨h.1, h.2.1 2 (by decide), h.2.2 ⟨6, 1, 0⟩ (by decide)⟩

/-- The capability marker types `Normal` and `FuncTag`, as a closed set of
tags (the crate seals them; `Value::Tag` ranges over exactly these two). -/
inductive Tag where
  | Normal
  | FuncTag
deriving DecidableEq

/-- One raw foreign entry-point invocation, recorded with the exact arguments
marshalled across the boundary.  For the list-taking entry points, `len` is
the value passed as the native `c_uint` count and `varArg` / `packed` the
`LLVMBool` flags. -/
inductive FFICall where
  | functionType (ret : Nat) (params : List Nat) (len varArg : Nat)
  | structTypeInContext (ctx : Nat) (fields : List Nat) (len packed : Nat)
  | buildCall2 (builder resty callee : Nat) (args : List Nat) (len : Nat)
      (name : String)
  | buildGEP2 (builder resty base : Nat) (args : List Nat) (len : Nat)
      (name : String)
  | buildAlloca (builder ty : Nat) (name : String)
  | buildLoad2 (builder ty ptr : Nat) (name : String)
  | buildStructGEP2 (builder ty ptr idx : Nat) (name : String)
  | buildAdd (builder lhs rhs : Nat) (name : String)
  | buildSub (builder lhs rhs : Nat) (name : String)
  | buildMul (builder lhs rhs : Nat) (name : String)
  | buildAnd (builder lhs rhs : Nat) (name : String)
  | buildOr (builder lhs rhs : Nat) (name : String)
  | buildXor (builder lhs rhs : Nat) (name : String)
  | buildNeg (builder operand : Nat) (name : String)
  | buildNot (builder operand : Nat) (name : String)
  | buildTruncOrBitCast (builder operand ty : Nat) (name : String)
  | buildICmp (builder : Nat) (pred : LLVMIntPredicate) (lhs rhs : Nat)
      (name : String)
deriving DecidableEq

/-- `Ty::fun_ty` of the generated impl: collect the parameter pointers into a
vector, call `LLVMFunctionType(self, args, len.try_into().unwrap(), 0)` and
wrap the raw result with `LLHandle::leaked(_, Normal)`.  The
`try_into().unwrap()` to the native `c_uint` panics — modelled as `none` —
when the length exceeds the native length type, and it is evaluated while the
arguments are built, before the foreign call.  The raw result pointer is
supplied by the foreign backend, modelled as the oracle `backend`. -/
def fun_ty (backend : FFICall → Nat) (retPtr : Nat) (params : List Nat) :
    Option (FFICall × LLHandle Tag) :=
  if params.length < 2 ^ 32 then
    let c := FFICall.functionType retPtr params params.length 0
    some (c, leaked (backend c) Tag.Normal)
  else none

/-- `Ty::struct_ty` of the generated impl: collect the field pointers, call
`LLVMStructTypeInContext(ctx, fields, len.try_into().unwrap(), packed)` and
wrap the raw result with `LLHandle::leaked(_, Normal)`. -/
def struct_ty (backend : FFICall → Nat) (ctxPtr : Nat) (fields : List Nat)
    (packed : Bool) : Option (FFICall × LLHandle Tag) :=
  if fields.length < 2 ^ 32 then
    let c := FFICall.structTypeInContext ctxPtr fields fields.length
      (if packed then 1 else 0)
    some (c, leaked (backend c) Tag.Normal)
  else none

/-- `Builder::call` of the generated impl: marshal the pointers, collect the
argument pointers, call `LLVMBuildCall2(.., len.try_into().unwrap(), name)`
and wrap the raw result with `LLHandle::leaked(_, Normal)`. -/
def Builder.call (backend : FFICall → Nat) (selfPtr restyPtr fnPtr : Nat)
    (args : List Nat) (name : String) : Option (FFICall × LLHandle Tag) :=
  if args.length < 2 ^ 32 then
    let c := FFICall.buildCall2 selfPtr restyPtr fnPtr args args.length name
    some (c, leaked (backend c) Tag.Normal)
  else none

/-- `Builder::gep2` of the generated impl: marshal the pointers, collect the
index pointers, call `LLVMBuildGEP2(.., len.try_into().unwrap(), name)` and
wrap the raw result with `LLHandle::leaked(_, Normal)`. -/
def Builder.gep2 (backend : FFICall → Nat) (selfPtr restyPtr basePtr : Nat)
    (args : List Nat) (name : String) : Option (FFICall × LLHandle Tag) :=
  if args.length < 2 ^ 32 then
    let c := FFICall.buildGEP2 selfPtr restyPtr basePtr args args.length name
    some (c, leaked (backend c) Tag.Normal)
  else none

/-- Macro-generated `Builder::Alloca` (`inst!` expansion): marshal the
arguments, call `LLVMBuildAlloca`, wrap the result with
`LLHandle::leaked(res, Normal)`. -/
def Builder.Alloca (backend : FFICall → Nat) (selfPtr tyPtr : Nat)
    (name : String) : FFICall × LLHandle Tag :=
  let c := FFICall.buildAlloca selfPtr tyPtr name
  (c, leaked (backend c) Tag.Normal)

/-- Macro-generated `Builder::Load2`. -/
def Builder.Load2 (backend : FFICall → Nat) (selfPtr tyPtr ptrPtr : Nat)
    (name : String) : FFICall × LLHandle Tag :=
  let c := FFICall.buildLoad2 selfPtr tyPtr ptrPtr name
  (c, leaked (backend c) Tag.Normal)

/-- Macro-generated `Builder::StructGEP2` (the `idx: &u32` parameter is
marshalled by dereference). -/
def Builder.StructGEP2 (backend : FFICall → Nat) (selfPtr tyPtr ptrPtr idx : Nat)
    (name : String) : FFICall × LLHandle Tag :=
  let c := FFICall.buildStructGEP2 selfPtr tyPtr ptrPtr idx name
  (c, leaked (backend c) Tag.Normal)

/-- Macro-generated `Builder::Add`. -/
def Builder.Add (backend : FFICall → Nat) (selfPtr lhsPtr rhsPtr : Nat)
    (name : String) : FFICall × LLHandle Tag :=
  let c := FFICall.buildAdd selfPtr lhsPtr rhsPtr name
  (c, leaked (backend c) Tag.Normal)

/-- Macro-generated `Builder::Sub`. -/
def Builder.Sub (backend : FFICall → Nat) (selfPtr lhsPtr rhsPtr : Nat)
    (name : String) : FFICall × LLHandle Tag :=
  let c := FFICall.buildSub selfPtr lhsPtr rhsPtr name
  (c, leaked (backend c) Tag.Normal)

/-- Macro-generated `Builder::Mul`. -/
def Builder.Mul (backend : FFICall → Nat) (selfPtr lhsPtr rhsPtr : Nat)
    (name : String) : FFICall × LLHandle Tag :=
  let c := FFICall.buildMul selfPtr lhsPtr rhsPtr name
  (c, leaked (backend c) Tag.Normal)

/-- Macro-generated `Builder::And`. -/
def Builder.And (backend : FFICall → Nat) (selfPtr lhsPtr rhsPtr : Nat)
    (name : String) : FFICall × LLHandle Tag :=
  let c := FFICall.buildAnd selfPtr lhsPtr rhsPtr name
  (c, leaked (backend c) Tag.Normal)

/-- Macro-generated `Builder::Or`. -/
def Builder.Or (backend : FFICall → Nat) (selfPtr lhsPtr rhsPtr : Nat)
    (name : String) : FFICall × LLHandle Tag :=
  let c := FFICall.buildOr selfPtr lhsPtr rhsPtr name
  (c, leaked (backend c) Tag.Normal)

/-- Macro-generated `Builder::Xor`. -/
def Builder.Xor (backend : FFICall → Nat) (selfPtr lhsPtr rhsPtr : Nat)
    (name : String) : FFICall × LLHandle Tag :=
  let c := FFICall.buildXor selfPtr lhsPtr rhsPtr name
  (c, leaked (backend c) Tag.Normal)

/-- Macro-generated `Builder::Neg`. -/
def Builder.Neg (backend : FFICall → Nat) (selfPtr lhsPtr : Nat)
    (name : String) : FFICall × LLHandle Tag :=
  let c := FFICall.buildNeg selfPtr lhsPtr name
  (c, leaked (backend c) Tag.Normal)

/-- Macro-generated `Builder::Not`. -/
def Builder.NotInst (backend : FFICall → Nat) (selfPtr lhsPtr : Nat)
    (name : String) : FFICall × LLHandle Tag :=
  let c := FFICall.buildNot selfPtr lhsPtr name
  (c, leaked (backend c) Tag.Normal)

/-- Macro-generated `Builder::TruncOrBitCast`. -/
def Builder.TruncOrBitCast (backend : FFICall → Nat) (selfPtr lhsPtr tyPtr : Nat)
    (name : String) : FFICall × LLHandle Tag :=
  let c := FFICall.buildTruncOrBitCast selfPtr lhsPtr tyPtr name
  (c, leaked (backend c) Tag.Normal)

/-- Macro-generated `Builder::ICmp` (named `ICmpInst` here because inside the
`Builder` namespace the bare name `ICmp` would shadow the predicate enum); the
`op: ICmp` parameter is marshalled through the `From` conversion. -/
def Builder.ICmpInst (backend : FFICall → Nat) (selfPtr : Nat) (op : ICmp)
    (lhsPtr rhsPtr : Nat) (name : String) : FFICall × LLHandle Tag :=
  let c := FFICall.buildICmp selfPtr (icmpFrom op) lhsPtr rhsPtr name
  (c, leaked (backend c) Tag.Normal)

theorem guard_none_iff {α : Type} (n : Nat) (x : α) :
    (if n < 2 ^ 32 then some x else none) = none ↔ 2 ^ 32 ≤ n := by
  split_ifs with h <;> simp <;> omega

theorem guard_mem {α : Type} (n : Nat) (x pr : α)
    (h : pr ∈ (if n < 2 ^ 32 then some x else none)) : pr = x := by
  rw [Option.mem_def] at h
  split_ifs at h
  exact (Option.some.inj h).symm

/-- Claim C5: for `Builder::call`, `Builder::gep2`, `Ty::fun_ty` and
`Ty::struct_ty`, the conversion of the argument/index/parameter/field count
to the backend's native length type panics — aborting before any foreign call
is made (the `none` case carries no foreign call) — exactly when the list's
length does not fit the native length type; and whenever the foreign call is
made, the count passed is the list's exact length, never a truncation. -/
theorem claim_C5_length_overflow_fails_fast (backend : FFICall → Nat)
    (b resty f base r cx : Nat) (args idxs ps fs : List Nat)
    (packed : Bool) (nm nm2 : String) :
    (Builder.call backend b resty f args nm = none ↔ 2 ^ 32 ≤ args.length) ∧
    (∀ pr ∈ Builder.call backend b resty f args nm,
        pr.1 = FFICall.buildCall2 b resty f args args.length nm) ∧
    (Builder.gep2 backend b resty base idxs nm2 = none ↔ 2 ^ 32 ≤ idxs.length) ∧
    (∀ pr ∈ Builder.gep2 backend b resty base idxs nm2,
        pr.1 = FFICall.buildGEP2 b resty base idxs idxs.length nm2) ∧
    (fun_ty backend r ps = none ↔ 2 ^ 32 ≤ ps.length) ∧
    (∀ pr ∈ fun_ty backend r ps,
        pr.1 = FFICall.functionType r ps ps.length 0) ∧
    (struct_ty backend cx fs packed = none ↔ 2 ^ 32 ≤ fs.length) ∧
    (∀ pr ∈ struct_ty backend cx fs packed,
        pr.1 = FFICall.structTypeInContext cx fs fs.length
          (if packed then 1 else 0)) := by
  refine ⟨?_, ?_, ?_, ?_, ?_, ?_, ?_, ?_⟩
  · simpa [Builder.call] using guard_none_iff args.length _
  · intro pr hpr
    have h := guard_mem args.length _ pr (by simpa [Builder.call] using hpr)
    simp [h]
  · simpa [Builder.gep2] using guard_none_iff idxs.length _
  · intro pr hpr
    have h := guard_mem idxs.length _ pr (by simpa [Builder.gep2] using hpr)
    simp [h]
  · simpa [fun_ty] using guard_none_iff ps.length _
  · intro pr hpr
    have h := guard_mem ps.length _ pr (by simpa [fun_ty] using hpr)
    simp [h]
  · simpa [struct_ty] using guard_none_iff fs.length _
  · intro pr hpr
    have h := guard_mem fs.length _ pr (by simpa [struct_ty] using hpr)
    simp [h]

theorem claim_C5_witness :
    (FFICall.buildCall2 1 7 6 [8, 9] 2 "x",
        (leaked 0 Tag.Normal : LLHandle Tag)).1
      = FFICall.buildCall2 1 7 6 [8, 9] [8, 9].length "x" ∧
    (FFICall.functionType 5 [2] 1 0,
        (leaked 0 Tag.Normal : LLHandle Tag)).1
      = FFICall.functionType 5 [2] [2].length 0 := by
  have h := claim_C5_length_overflow_fails_fast (fun _ => 0) 1 7 6 3 5 4
      [8, 9] [] [2] [] false "x" "y"
  exact ⟨h.2.1 _ (by decide), h.2.2.2.2.2.1 _ (by decide)⟩

/-- Projection of the variadic flag of a recorded `LLVMFunctionType` call. -/
def varArgOf : FFICall → Option Nat
  | FFICall.functionType _ _ _ v => some v
  | _ => none

/-- Claim C10: `Ty::fun_ty` passes the literal `0` as the backend's variadic
flag, so every function type constructed through this layer (whatever the
return type and parameter iterator) is non-variadic. -/
theorem claim_C10_fun_ty_nonvariadic (backend : FFICall → Nat) (r : Nat)
    (ps : List Nat) :
    ∀ pr ∈ fun_ty backend r ps, varArgOf pr.1 = some 0 := by
  intro pr hpr
  have h := guard_mem ps.length _ pr (by simpa [fun_ty] using hpr)
  simp [h, varArgOf]

theorem claim_C10_witness :
    varArgOf (FFICall.functionType 1 [2, 3] 2 0) = some 0 :=
  claim_C10_fun_ty_nonvariadic (fun _ => 0) 1 [2, 3]
    (FFICall.functionType 1 [2, 3] 2 0, leaked 0 Tag.Normal) (by decide)

/-- Claim C6: every result-producing builder operation — the hand-written
`call` and `gep2` and the macro-generated Alloca, Load2, StructGEP2, Add, Sub,
Mul, And, Or, Xor, Neg, Not, TruncOrBitCast and ICmp — wraps the raw result
pointer as `LLHandle::leaked(res, Normal)`, a non-owning Normal-tagged value;
the result is thus never registered in the ownership table, and cloning or
dropping any handle whose address is unregistered leaves the table unchanged
and invokes no release routine (so the underlying instruction value is never
individually released by its result handle). -/
theorem claim_C6_results_leaked_normal (backend : FFICall → Nat)
    (m : Registry) (b ty p l r f resty idx : Nat) (args idxs : List Nat)
    (op : ICmp) (nm : String) :
    (∀ pr ∈ Builder.call backend b resty f args nm,
        pr.2 = leaked (backend pr.1) Tag.Normal) ∧
    (∀ pr ∈ Builder.gep2 backend b resty p idxs nm,
        pr.2 = leaked (backend pr.1) Tag.Normal) ∧
    (∀ hres : LLHandle Tag, regGet m hres.val = none →
        cloneH m hres = (hres, m) ∧ dropH m hres = (m, none)) ∧
    (Builder.Alloca backend b ty nm).2
      = leaked (backend (Builder.Alloca backend b ty nm).1) Tag.Normal ∧
    (Builder.Load2 backend b ty p nm).2
      = leaked (backend (Builder.Load2 backend b ty p nm).1) Tag.Normal ∧
    (Builder.StructGEP2 backend b ty p idx nm).2
      = leaked (backend (Builder.StructGEP2 backend b ty p idx nm).1)
          Tag.Normal ∧
    (Builder.Add backend b l r nm).2
      = leaked (backend (Builder.Add backend b l r nm).1) Tag.Normal ∧
    (Builder.Sub backend b l r nm).2
      = leaked (backend (Builder.Sub backend b l r nm).1) Tag.Normal ∧
    (Builder.Mul backend b l r nm).2
      = leaked (backend (Builder.Mul backend b l r nm).1) Tag.Normal ∧
    (Builder.And backend b l r nm).2
      = leaked (backend (Builder.And backend b l r nm).1) Tag.Normal ∧
    (Builder.Or backend b l r nm).2
      = leaked (backend (Builder.Or backend b l r nm).1) Tag.Normal ∧
    (Builder.Xor backend b l r nm).2
      = leaked (backend (Builder.Xor backend b l r nm).1) Tag.Normal ∧
    (Builder.Neg backend b l nm).2
      = leaked (backend (Builder.Neg backend b l nm).1) Tag.Normal ∧
    (Builder.NotInst backend b l nm).2
      = leaked (backend (Builder.NotInst backend b l nm).1) Tag.Normal ∧
    (Builder.TruncOrBitCast backend b l ty nm).2
      = leaked (backend (Builder.TruncOrBitCast backend b l ty nm).1)
          Tag.Normal ∧
    (Builder.ICmpInst backend b op l r nm).2
      = leaked (backend (Builder.ICmpInst backend b op l r nm).1)
          Tag.Normal := by
  refine ⟨?_, ?_, ?_, rfl, rfl, rfl, rfl, rfl, rfl, rfl, rfl, rfl, rfl, rfl,
    rfl, rfl⟩
  · intro pr hpr
    have h := guard_mem args.length _ pr (by simpa [Builder.call] using hpr)
    simp [h]
  · intro pr hpr
    have h := guard_mem idxs.length _ pr (by simpa [Builder.gep2] using hpr)
    simp [h]
  · intro hres hg
    exact ⟨cloneH_unregistered m hres hg, dropH_unregistered m hres hg⟩

theorem claim_C6_witness :
    (FFICall.buildCall2 1 7 6 [8] 1 "x",
        (leaked 0 Tag.Normal : LLHandle Tag)).2 = leaked 0 Tag.Normal ∧
    (FFICall.buildGEP2 1 7 3 [9] 1 "x",
        (leaked 0 Tag.Normal : LLHandle Tag)).2 = leaked 0 Tag.Normal ∧
    cloneH [] (⟨11, Tag.Normal⟩ : LLHandle Tag) = (⟨11, Tag.Normal⟩, []) ∧
    dropH [] (⟨11, Tag.Normal⟩ : LLHandle Tag) = ([], none) := by
  have h := claim_C6_results_leaked_normal (fun _ => 0) [] 1 2 3 4 5 6 7 0
      [8] [9] ICmp.Eq "x"
  have hc := h.1 (FFICall.buildCall2 1 7 6 [8] 1 "x", leaked 0 Tag.Normal)
    (by decide)
  have hg := h.2.1 (FFICall.buildGEP2 1 7 3 [9] 1 "x", leaked 0 Tag.Normal)
    (by decide)
  have hd := h.2.2.1 (⟨11, Tag.Normal⟩ : LLHandle Tag) (by decide)
  exact ⟨hc, hg, hd.1, hd.2⟩

/-- The handle roles of the capability-interface hierarchy; a `Value` carries
its capability tag (`Tag.Normal` or `Tag.FuncTag`). -/
inductive HTy where
  | ctxTy
  | modTy
  | tyTy
  | valueTy (t : Tag)
  | bbTy
deriving DecidableEq

/-- Expressions of the capability API surface relevant to block creation:
each constructor is one operation of the trait hierarchy. -/
inductive HExpr where
  | ctxRoot
  | createMod (name : String) (c : HExpr)
  | ctxOf (m : HExpr)
  | intTy (c : HExpr) (size : Nat)
  | ptrTy (c : HExpr) (space : Nat)
  | constInt (ty : HExpr) (n : Nat) (sext : Bool)
  | functionDecl (m : HExpr) (name : String) (ty : HExpr)
  | modOf (v : HExpr)
  | bbNew (f : HExpr) (name : String)
deriving DecidableEq

/-- The static typing discipline of the trait hierarchy, transcribed from the
method signatures of the source: `Mod::create_mod` takes a `Ctx`;
`Mod::ctx` gives a `Ctx`; `Ty::int_ty` / `Ty::ptr_ty` take a `Ctx`;
`ValueKind::const_int` returns `Val<Normal>`; `ValueKind::function` returns
`Func` = a value whose tag is `FuncTag`; `Value::mod` takes any tagged value;
`BB::new` takes `Self::Func`, i.e. exactly a value tagged `FuncTag`.  A
program that violates a signature has no type — it is rejected by the
compiler, not checked at run time. -/
def typeOf : HExpr → Option HTy
  | HExpr.ctxRoot => some HTy.ctxTy
  | HExpr.createMod _ c =>
    match typeOf c with
    | some HTy.ctxTy => some HTy.modTy
    | _ => none
  | HExpr.ctxOf m =>
    match typeOf m with
    | some HTy.modTy => some HTy.ctxTy
    | _ => none
  | HExpr.intTy c _ =>
    match typeOf c with
    | some HTy.ctxTy => some HTy.tyTy
    | _ => none
  | HExpr.ptrTy c _ =>
    match typeOf c with
    | some HTy.ctxTy => some HTy.tyTy
    | _ => none
  | HExpr.constInt ty _ _ =>
    match typeOf ty with
    | some HTy.tyTy => some (HTy.valueTy Tag.Normal)
    | _ => none
  | HExpr.functionDecl m _ ty =>
    match typeOf m, typeOf ty with
    | some HTy.modTy, some HTy.tyTy => some (HTy.valueTy Tag.FuncTag)
    | _, _ => none
  | HExpr.modOf v =>
    match typeOf v with
    | some (HTy.valueTy _) => some HTy.modTy
    | _ => none
  | HExpr.bbNew f _ =>
    match typeOf f with
    | some (HTy.valueTy Tag.FuncTag) => some HTy.bbTy
    | _ => none

/-- Claim C7: in the typing discipline of the trait hierarchy, appending a
basic block (`BB::new`) is well typed exactly when its argument is a value
whose capability tag is `FuncTag` — it accepts every Function-tagged value —
and in particular the equivalent operation on a Normal-tagged value has no
type at all: it is rejected by the type checker at compile time, not merely
checked or documented at run time. -/
theorem claim_C7_bb_new_requires_functag (f : HExpr) (name : String) :
    ((∃ T, typeOf (HExpr.bbNew f name) = some T) ↔
      typeOf f = some (HTy.valueTy Tag.FuncTag)) ∧
    (typeOf f = some (HTy.valueTy Tag.FuncTag) →
      typeOf (HExpr.bbNew f name) = some HTy.bbTy) ∧
    (typeOf f = some (HTy.valueTy Tag.Normal) →
      typeOf (HExpr.bbNew f name) = none) := by
  refine ⟨⟨?_, ?_⟩, ?_, ?_⟩
  · rintro ⟨T, hT⟩
    rcases hf : typeOf f with _ | t
    · simp [typeOf, hf] at hT
    · rcases t with _ | _ | _ | t | _
      · simp [typeOf, hf] at hT
      · simp [typeOf, hf] at hT
      · simp [typeOf, hf] at hT
      · rcases t with _ | _
        · simp [typeOf, hf] at hT
        · rfl
      · simp [typeOf, hf] at hT
  · intro hf
    exact ⟨HTy.bbTy, by simp [typeOf, hf]⟩
  · intro hf
    simp [typeOf, hf]
  · intro hf
    simp [typeOf, hf]

theorem claim_C7_witness :
    typeOf (HExpr.bbNew (HExpr.functionDecl
        (HExpr.createMod "m" HExpr.ctxRoot) "f"
        (HExpr.intTy HExpr.ctxRoot 32)) "entry") = some HTy.bbTy ∧
    typeOf (HExpr.bbNew (HExpr.constInt
        (HExpr.intTy HExpr.ctxRoot 32) 0 false) "entry") = none :=
  ⟨(claim_C7_bb_new_requires_functag (HExpr.functionDecl
        (HExpr.createMod "m" HExpr.ctxRoot) "f"
        (HExpr.intTy HExpr.ctxRoot 32)) "entry").2.1 (by decide),
   (claim_C7_bb_new_requires_functag (HExpr.constInt
        (HExpr.intTy HExpr.ctxRoot 32) 0 false) "entry").2.2 (by decide)⟩
